import Mathlib

/-!
# Verification of the aerchain procurement backend's extraction and scoring core

This file gives a shallow embedding, in Lean 4, of the deterministic core of the
aerchain backend (the `aiService` module's regex fallback parsers, the fallback
proposal-comparison scoring, the fallback RFP e-mail template, and the proposal
comparison HTTP handler), together with theorems settling the frozen claims
about it.

Modelling conventions, used throughout:

* JS strings are modelled by `String` / `List Char`.  The one nullable string
  parameter that matters (the raw input of the two parse operations, whose very
  first use is `.toLowerCase()`) is modelled by `Option String`, `none` standing
  for `null`/`undefined`; a thrown JS exception is modelled by `Except.error`.
* JS numbers are modelled by `ℚ` (scores, prices, division) or `ℕ`/`ℤ` where
  the source can only produce integers.  `NaN` is represented explicitly by
  `JSNum.nan` where it is producible (`parseInt` on an all-comma budget match);
  the proposal-data numeric fields use `Option ℚ`, where `none` covers both
  `null` and `NaN`: both are falsy, so `x || d` gives `d`, `x ? a : b` gives
  `b`, and `x > 0` is false for either, which is every use the code makes of
  those fields.
* `Math.round x` is `⌊x + 1/2⌋` (JS rounds half towards +∞).
* JS truthiness: `0`, `NaN`, `""`, `null`/`undefined` are falsy; the embedding
  spells the corresponding tests out at each use site.
* `Array.prototype.sort` (ES2019+, as implemented by Node's V8) is a stable
  sort driven by the comparator.  For a transitive, total comparator order the
  output of a stable sort is unique (it is the sort by (key, input position)),
  so any stable sorting algorithm models it exactly; the embedding uses
  `List.insertionSort`, which is stable and kernel-computable, with the
  relation `a ≼ b` defined as `comparator a b ≤ 0`, i.e.
  `b.overallScore ≤ a.overallScore` for the descending score sort.
* The regular expressions of the fallback parsers are implemented as dedicated
  maximal-munch scanners.  For every pattern in the source, the token that
  follows a greedy `\d+` / `[\d,]*` / `\s*` / `[- ]?` / `s?` piece starts with
  a character the greedy piece cannot consume, so backtracking can never
  produce a different match and maximal munch is faithful to the JS engine.
  `\s` is modelled on its ASCII part (space, tab, CR, LF, VT, FF);
  `toLowerCase`/`toUpperCase` are modelled on the ASCII range.
-/

namespace Aerchain

/-! ## Characters and elementary string scanning -/

/-- ASCII lower-casing of one character (`String.prototype.toLowerCase`,
restricted to the ASCII range). -/
def lowerChar (c : Char) : Char :=
  if 'A' ≤ c ∧ c ≤ 'Z' then Char.ofNat (c.toNat + 32) else c

/-- ASCII upper-casing of one character (`String.prototype.toUpperCase`,
restricted to the ASCII range). -/
def upperChar (c : Char) : Char :=
  if 'a' ≤ c ∧ c ≤ 'z' then Char.ofNat (c.toNat - 32) else c

/-- ASCII lower-casing of a character list. -/
def lowerL (l : List Char) : List Char := l.map lowerChar

/-- The ASCII part of the JS regex class `\s`. -/
def jsSpace (c : Char) : Bool :=
  c == ' ' || c == '\t' || c == '\n' || c == '\r' || c == '\x0b' || c == '\x0c'

/-- The JS regex class `[\d,]`. -/
def isDigitComma (c : Char) : Bool := c.isDigit || c == ','

/-- Value of a (non-empty) list of decimal digits, i.e. `parseInt` on a string
that is known to consist of digits only. -/
def natOfDigits (l : List Char) : ℕ :=
  l.foldl (fun n c => n * 10 + (c.toNat - 48)) 0

/-- `parseInt(s)` restricted to what the call sites can feed it: optional
leading whitespace and sign, then leading decimal digits; `none` models `NaN`
(no digits at all). -/
def parseIntJS (l : List Char) : Option ℤ :=
  let l1 := l.dropWhile jsSpace
  match l1 with
  | '-' :: r =>
    let ds := r.takeWhile Char.isDigit
    if ds.isEmpty then none else some (-(natOfDigits ds : ℤ))
  | '+' :: r =>
    let ds := r.takeWhile Char.isDigit
    if ds.isEmpty then none else some (natOfDigits ds : ℤ)
  | _ =>
    let ds := l1.takeWhile Char.isDigit
    if ds.isEmpty then none else some (natOfDigits ds : ℤ)

/-- Case-insensitive literal match at the head of the input.  `pat` is given
lower-case; on success, returns the matched characters (in their original case)
and the rest of the input. -/
def matchLitCI : List Char → List Char → Option (List Char × List Char)
  | [], l => some ([], l)
  | _ :: _, [] => none
  | p :: ps, c :: cs =>
    if lowerChar c = p then
      match matchLitCI ps cs with
      | some (m, r) => some (c :: m, r)
      | none => none
    else none

theorem matchLitCI_length_le :
    ∀ {pat l m r : List Char}, matchLitCI pat l = some (m, r) → r.length ≤ l.length := by
  intro pat
  induction pat with
  | nil => intro l m r h; simp only [matchLitCI] at h; cases h; simp
  | cons p ps ih =>
    intro l m r h
    cases l with
    | nil => simp [matchLitCI] at h
    | cons c cs =>
      simp only [matchLitCI] at h
      split at h
      · cases hm : matchLitCI ps cs with
        | none => rw [hm] at h; cases h
        | some pr =>
          rw [hm] at h
          cases pr with
          | mk m' r' =>
            cases h
            have := ih hm
            simp only [List.length_cons]
            omega
      · cases h

theorem matchLitCI_length_lt {p : Char} {ps l m r : List Char}
    (h : matchLitCI (p :: ps) l = some (m, r)) : r.length < l.length := by
  cases l with
  | nil => simp [matchLitCI] at h
  | cons c cs =>
    simp only [matchLitCI] at h
    split at h
    · cases hm : matchLitCI ps cs with
      | none => rw [hm] at h; cases h
      | some pr =>
        rw [hm] at h
        cases pr with
        | mk m' r' =>
          cases h
          have := matchLitCI_length_le hm
          simp only [List.length_cons]
          omega
    · cases h

/-- One alternative of a keyword alternation such as `laptops?`: a lower-case
core literal, plus whether a greedy optional trailing `s` follows. -/
def matchKw (core : List Char) (optS : Bool) (l : List Char) :
    Option (List Char × List Char) :=
  match matchLitCI core l with
  | none => none
  | some (m, r) =>
    if optS then
      match r with
      | c :: cs => if lowerChar c = 's' then some (m ++ [c], cs) else some (m, c :: cs)
      | [] => some (m, [])
    else some (m, r)

theorem matchKw_length_le {core : List Char} {b : Bool} {l m r : List Char}
    (h : matchKw core b l = some (m, r)) : r.length ≤ l.length := by
  unfold matchKw at h
  cases hm : matchLitCI core l with
  | none => rw [hm] at h; cases h
  | some pr =>
    rw [hm] at h
    obtain ⟨m', r'⟩ := pr
    have hle : r'.length ≤ l.length := matchLitCI_length_le hm
    cases b with
    | false =>
      simp only [Bool.false_eq_true, if_false] at h
      cases h
      exact hle
    | true =>
      simp only [if_true] at h
      cases r' with
      | nil =>
        cases h
        exact Nat.zero_le _
      | cons c cs =>
        by_cases hc : lowerChar c = 's'
        · simp only [hc, if_true, Option.some.injEq, Prod.mk.injEq] at h
          obtain ⟨h1, h2⟩ := h
          subst h2
          simp only [List.length_cons] at hle
          omega
        · simp only [if_neg hc, Option.some.injEq, Prod.mk.injEq] at h
          obtain ⟨h1, h2⟩ := h
          subst h2
          exact hle

/-- An ordered alternation of keyword alternatives (the JS engine tries
alternatives left to right). -/
def matchAlts : List (List Char × Bool) → List Char → Option (List Char × List Char)
  | [], _ => none
  | a :: rest, l =>
    match matchKw a.1 a.2 l with
    | some res => some res
    | none => matchAlts rest l

theorem matchAlts_length_le :
    ∀ {alts : List (List Char × Bool)} {l m r : List Char},
      matchAlts alts l = some (m, r) → r.length ≤ l.length := by
  intro alts
  induction alts with
  | nil => intro l m r h; simp [matchAlts] at h
  | cons a rest ih =>
    intro l m r h
    simp only [matchAlts] at h
    cases hk : matchKw a.1 a.2 l with
    | none => rw [hk] at h; exact ih h
    | some pr =>
      rw [hk] at h
      cases pr with
      | mk m' r' => cases h; exact matchKw_length_le hk

/-- Try the pattern `(\d+)\s*(alt₁|alt₂|…)` anchored at the head of the input;
on success, return the digit capture, the matched keyword text and the rest of
the input. -/
def tryItemAt (alts : List (List Char × Bool)) (l : List Char) :
    Option (List Char × List Char × List Char) :=
  if (l.takeWhile Char.isDigit).isEmpty then none
  else
    match matchAlts alts ((l.dropWhile Char.isDigit).dropWhile jsSpace) with
    | some (kw, rest) => some (l.takeWhile Char.isDigit, kw, rest)
    | none => none

theorem length_dropWhile_le (p : Char → Bool) (l : List Char) :
    (l.dropWhile p).length ≤ l.length := by
  induction l with
  | nil => simp
  | cons c cs ih =>
    by_cases h : p c
    · simp [List.dropWhile, h]; omega
    · simp [List.dropWhile, h]

theorem length_dropWhile_lt {p : Char → Bool} {l : List Char}
    (h : ¬ (l.takeWhile p).isEmpty) : (l.dropWhile p).length < l.length := by
  cases l with
  | nil => simp [List.takeWhile] at h
  | cons c cs =>
    by_cases hp : p c
    · simp only [List.dropWhile, hp]
      have := length_dropWhile_le p cs
      simp only [List.length_cons]
      omega
    · simp [List.takeWhile, hp] at h

theorem tryItemAt_length {alts : List (List Char × Bool)} {l ds kw rest : List Char}
    (h : tryItemAt alts l = some (ds, kw, rest)) : rest.length < l.length := by
  unfold tryItemAt at h
  split at h
  · cases h
  · rename_i hne
    cases hm : matchAlts alts ((l.dropWhile Char.isDigit).dropWhile jsSpace) with
    | none => rw [hm] at h; cases h
    | some pr =>
      rw [hm] at h
      obtain ⟨m', r'⟩ := pr
      cases h
      have h1 := matchAlts_length_le hm
      have h2 := length_dropWhile_le jsSpace (l.dropWhile Char.isDigit)
      have h3 := length_dropWhile_lt hne
      omega

/-- Fuel-indexed worker for `scanItems`.  The fuel only bounds the number of
scan steps; `scanItemsF_fuel` below shows that any fuel of at least the input
length gives the same result, so the fuel is never observable. -/
def scanItemsF (alts : List (List Char × Bool)) : ℕ → List Char → List (List Char × List Char)
  | 0, _ => []
  | _ + 1, [] => []
  | n + 1, c :: cs =>
    match tryItemAt alts (c :: cs) with
    | some (ds, kw, rest) => (ds, kw) :: scanItemsF alts n rest
    | none => scanItemsF alts n cs

theorem scanItemsF_fuel (alts : List (List Char × Bool)) :
    ∀ (m : ℕ) (n : ℕ) (l : List Char), l.length ≤ m → l.length ≤ n →
      scanItemsF alts m l = scanItemsF alts n l := by
  intro m
  induction m with
  | zero =>
    intro n l hm _
    have : l = [] := List.length_eq_zero.mp (Nat.le_zero.mp hm)
    subst this
    cases n <;> rfl
  | succ m ih =>
    intro n l hm hn
    cases l with
    | nil => cases n <;> rfl
    | cons c cs =>
      cases n with
      | zero => simp at hn
      | succ n' =>
        simp only [scanItemsF]
        cases ht : tryItemAt alts (c :: cs) with
        | none =>
          simp only [List.length_cons] at hm hn
          exact ih n' cs (by omega) (by omega)
        | some res =>
          obtain ⟨ds, kw, rest⟩ := res
          have := tryItemAt_length ht
          simp only [List.length_cons] at hm hn this
          dsimp only
          rw [ih n' rest (by omega) (by omega)]

/-- All the (non-overlapping, left to right) matches of the global pattern
`(\d+)\s*(alt₁|alt₂|…)/g`, as pairs (digit capture, matched keyword text).
This is `pattern.exec` iterated with an advancing `lastIndex`. -/
def scanItems (alts : List (List Char × Bool)) (l : List Char) : List (List Char × List Char) :=
  scanItemsF alts l.length l

/-- Leftmost match of an anchored pattern: try the pattern at each position,
left to right.  (Every pattern used below consumes at least one character, so
positions are tried on non-empty suffixes only.) -/
def scanFirst {α : Type} (f : List Char → Option α) : List Char → Option α
  | [] => none
  | c :: cs =>
    match f (c :: cs) with
    | some a => some a
    | none => scanFirst f cs

/-- Does `needle` occur as a contiguous substring of the input
(`String.prototype.includes`)? -/
def containsSub (needle : List Char) : List Char → Bool
  | [] => needle.isEmpty
  | c :: cs => needle.isPrefixOf (c :: cs) || containsSub needle cs

/-- `s.substring(0, n)` on a JS string. -/
def strTake (n : ℕ) (s : String) : String := ⟨s.data.take n⟩

/-! ## Data model of the extraction layer -/

/-- A JS number that is either an actual (here: integral) value or `NaN`. -/
inductive JSNum where
  | nan : JSNum
  | val : ℤ → JSNum
deriving DecidableEq, Repr

/-- One extracted RFP item (`{name, quantity, specifications}`). -/
structure Item where
  name : String
  quantity : ℕ
  specifications : String
deriving DecidableEq, Repr

/-- The `requirements` sub-object of an extraction result. -/
structure Requirements where
  paymentTerms : Option String
  warranty : Option String
  deliveryLocation : Option String
  additionalTerms : List String
deriving DecidableEq, Repr

/-- The structured RFP extraction result built by `fallbackParseRFP` (and, on
the generative path, parsed from the service's JSON). -/
structure RFPData where
  title : String
  description : String
  budget : Option JSNum
  currency : String
  deliveryDays : Option ℕ
  items : List Item
  requirements : Requirements
deriving DecidableEq, Repr

/-! ## The regex fallback RFP parser (`fallbackParseRFP`, aiService lines 23–115) -/

/-- Anchored attempt of the second budget alternative
`\d+[\d,]*\s*(dollars|usd)`; returns the whole matched text (`match[0]`). -/
def budgetAlt2At (l : List Char) : Option (List Char) :=
  let ds := l.takeWhile Char.isDigit
  if ds.isEmpty then none
  else
    let r1 := l.dropWhile Char.isDigit
    let dcs := r1.takeWhile isDigitComma
    let r2 := r1.dropWhile isDigitComma
    let sps := r2.takeWhile jsSpace
    let r3 := r2.dropWhile jsSpace
    match matchLitCI "dollars".data r3 with
    | some (m, _) => some (ds ++ dcs ++ sps ++ m)
    | none =>
      match matchLitCI "usd".data r3 with
      | some (m, _) => some (ds ++ dcs ++ sps ++ m)
      | none => none

/-- Anchored attempt of `\$[\d,]+|\d+[\d,]*\s*(dollars|usd)` (the two
alternatives are tried in order, as the JS engine does). -/
def budgetAt (l : List Char) : Option (List Char) :=
  match l with
  | '$' :: r =>
    let dcs := r.takeWhile isDigitComma
    if dcs.isEmpty then budgetAlt2At l else some ('$' :: dcs)
  | _ => budgetAlt2At l

/-- `match[0].replace(/[$,\s]|dollars|usd/gi, '')` (alternatives tried in
order at each position, global). -/
def cleanBudgetF : ℕ → List Char → List Char
  | 0, _ => []
  | _ + 1, [] => []
  | n + 1, c :: cs =>
    if c = '$' ∨ c = ',' ∨ jsSpace c then cleanBudgetF n cs
    else
      match matchLitCI "dollars".data (c :: cs) with
      | some (_, r) => cleanBudgetF n r
      | none =>
        match matchLitCI "usd".data (c :: cs) with
        | some (_, r) => cleanBudgetF n r
        | none => c :: cleanBudgetF n cs

theorem cleanBudgetF_fuel :
    ∀ (m n : ℕ) (l : List Char), l.length ≤ m → l.length ≤ n →
      cleanBudgetF m l = cleanBudgetF n l := by
  intro m
  induction m with
  | zero =>
    intro n l hm _
    have : l = [] := List.length_eq_zero.mp (Nat.le_zero.mp hm)
    subst this
    cases n <;> rfl
  | succ m ih =>
    intro n l hm hn
    cases l with
    | nil => cases n <;> rfl
    | cons c cs =>
      cases n with
      | zero => simp at hn
      | succ n' =>
        simp only [List.length_cons] at hm hn
        simp only [cleanBudgetF]
        split

        · exact ih n' cs (by omega) (by omega)
        · cases hd : matchLitCI "dollars".data (c :: cs) with
          | some pr =>
            obtain ⟨m', r⟩ := pr
            have := matchLitCI_length_lt (by simpa using hd)
            simp only [List.length_cons] at this
            exact ih n' r (by omega) (by omega)
          | none =>
            cases hu : matchLitCI "usd".data (c :: cs) with
            | some pr =>
              obtain ⟨m', r⟩ := pr
              have := matchLitCI_length_lt (by simpa using hu)
              simp only [List.length_cons] at this
              exact ih n' r (by omega) (by omega)
            | none => rw [ih n' cs (by omega) (by omega)]

/-- `match[0].replace(/[$,\s]|dollars|usd/gi, '')` (alternatives tried in
order at each position, global).  The fuel of the worker is the input length,
which `cleanBudgetF_fuel` shows is never observable. -/
def cleanBudget (l : List Char) : List Char := cleanBudgetF l.length l

/-- The keyword alternation `(days?|weeks?)`. -/
def dayWeekAlts : List (List Char × Bool) := [("day".data, true), ("week".data, true)]

/-- Anchored attempt of `(\d+)\s*GB\s*RAM/i`; returns the digit capture
(`match[1]`, as text). -/
def ramAt (l : List Char) : Option (List Char) :=
  let ds := l.takeWhile Char.isDigit
  if ds.isEmpty then none
  else
    let r1 := (l.dropWhile Char.isDigit).dropWhile jsSpace
    match matchLitCI "gb".data r1 with
    | some (_, r2) =>
      match matchLitCI "ram".data (r2.dropWhile jsSpace) with
      | some _ => some ds
      | none => none
    | none => none

/-- Anchored attempt of `(\d+)[- ]?(inch|")/i`; returns the digit capture. -/
def screenAt (l : List Char) : Option (List Char) :=
  let ds := l.takeWhile Char.isDigit
  if ds.isEmpty then none
  else
    let r1 := l.dropWhile Char.isDigit
    let r2 := match r1 with
      | c :: cs => if c = '-' ∨ c = ' ' then cs else r1
      | [] => r1
    match matchLitCI "inch".data r2 with
    | some _ => some ds
    | none =>
      match r2 with
      | '"' :: _ => some ds
      | _ => none

/-- Anchored attempt of `(\d+)\s*(year|month)s?\s*warranty/i`; returns the two
captures (digits, unit). -/
def warrantyAt (l : List Char) : Option (List Char × List Char) :=
  let ds := l.takeWhile Char.isDigit
  if ds.isEmpty then none
  else
    let r1 := (l.dropWhile Char.isDigit).dropWhile jsSpace
    let unitRes :=
      match matchLitCI "year".data r1 with
      | some (m, r) => some (m, r)
      | none => matchLitCI "month".data r1
    match unitRes with
    | none => none
    | some (unit, r2) =>
      let r3 := match r2 with
        | c :: cs => if lowerChar c = 's' then cs else r2
        | [] => r2
      match matchLitCI "warranty".data (r3.dropWhile jsSpace) with
      | some _ => some (ds, unit)
      | none => none

/-- The seven item category patterns of `fallbackParseRFP`, in source order;
each entry is one keyword alternation (`laptops?` is `("laptop", true)`;
note that `switches?` matches `switche` or `switches`, as in the source). -/
def itemPatternAlts : List (List (List Char × Bool)) :=
  [ [("laptop".data, true), ("computer".data, true), ("pc".data, true), ("machine".data, true)],
    [("monitor".data, true), ("display".data, true), ("screen".data, true)],
    [("keyboard".data, true), ("mice".data, false), ("mouse".data, false)],
    [("chair".data, true), ("desk".data, true), ("table".data, true)],
    [("phone".data, true), ("mobile".data, true), ("handset".data, true)],
    [("printer".data, true), ("scanner".data, true)],
    [("server".data, true), ("router".data, true), ("switche".data, true)] ]

/-- `match[2].replace(/s$/, '')` — drops one trailing lower-case `s` (the
regex is case-sensitive). -/
def dropTrailingS (l : List Char) : List Char :=
  match l.reverse with
  | 's' :: t => t.reverse
  | _ => l

/-- Item name construction:
`match[2].replace(/s$/,'').charAt(0).toUpperCase() + match[2].replace(/s$/,'').slice(1)`. -/
def itemNameOfKw (kw : List Char) : String :=
  match dropTrailingS kw with
  | [] => ""
  | c :: cs => ⟨upperChar c :: cs⟩

/-- Build one `Item` from a category-pattern match. -/
def mkItem (m : List Char × List Char) : Item :=
  { name := itemNameOfKw m.2, quantity := natOfDigits m.1, specifications := "" }

/-- The raw item list extracted by the seven category patterns, in source
order (`itemPatterns.forEach` pushing every global match). -/
def extractItems (u : List Char) : List Item :=
  (itemPatternAlts.map (fun alts => scanItems alts u)).flatten.map mkItem

/-- `items[0].specifications = …GB RAM` when a RAM spec matched and the item
list is non-empty (aiService lines 67–70). -/
def applyRam (u : List Char) (items : List Item) : List Item :=
  match scanFirst ramAt u with
  | none => items
  | some ds =>
    match items with
    | [] => []
    | it :: rest => { it with specifications := (⟨ds⟩ : String) ++ "GB RAM" } :: rest

/-- Overwrite the specifications of the first item whose name contains
"monitor" (case-insensitively), if any. -/
def setFirstMonitorSpec (spec : String) : List Item → List Item
  | [] => []
  | it :: rest =>
    if containsSub "monitor".data (lowerL it.name.data) then
      { it with specifications := spec } :: rest
    else it :: setFirstMonitorSpec spec rest

/-- Screen-size assignment (aiService lines 73–79). -/
def applyScreen (u : List Char) (items : List Item) : List Item :=
  match scanFirst screenAt u with
  | none => items
  | some ds => setFirstMonitorSpec ((⟨ds⟩ : String) ++ " inch") items

/-- Payment-terms extraction (aiService lines 82–86), on the lower-cased
input. -/
def extractPaymentTerms (low : List Char) : Option String :=
  if containsSub "net 30".data low then some "Net 30"
  else if containsSub "net 60".data low then some "Net 60"
  else if containsSub "net 15".data low then some "Net 15"
  else if containsSub "immediate".data low || containsSub "advance".data low then
    some "Advance Payment"
  else none

/-- Warranty extraction and rendering (aiService lines 89–93), on the
lower-cased input. -/
def extractWarranty (low : List Char) : Option String :=
  (scanFirst warrantyAt low).map fun m =>
    (⟨m.1⟩ : String) ++ " " ++ (⟨m.2⟩ : String) ++
      (if 1 < natOfDigits m.1 then "s" else "") ++ " warranty"

/-- The placeholder item synthesised when no category pattern matched. -/
def placeholderItem (userInput : String) : Item :=
  { name := "Items as specified", quantity := 1, specifications := strTake 100 userInput }

/-- The regex fallback RFP parser (`fallbackParseRFP`, aiService lines
23–115), as a total function on JS strings. Every string operation it uses
(`toLowerCase`, `match`, `replace`, `parseInt`, `substring`) is total on
strings, so the function never throws on a string input. -/
def fallbackParseRFP (userInput : String) : RFPData :=
  let u := userInput.data
  let low := lowerL u
  let budget : Option JSNum :=
    (scanFirst budgetAt u).map fun m =>
      match parseIntJS (cleanBudget m) with
      | some z => JSNum.val z
      | none => JSNum.nan
  let deliveryDays : Option ℕ :=
    (scanFirst (tryItemAt dayWeekAlts) low).map fun m =>
      if containsSub "week".data m.2.1 then natOfDigits m.1 * 7 else natOfDigits m.1
  let items := applyScreen u (applyRam u (extractItems u))
  { title :=
      if items.isEmpty then "Procurement Request"
      else String.intercalate " and " (items.map Item.name) ++ " Procurement"
    description := strTake 200 userInput
    budget := budget
    currency := "USD"
    deliveryDays := deliveryDays
    items := if items.isEmpty then [placeholderItem userInput] else items
    requirements :=
      { paymentTerms := extractPaymentTerms low
        warranty := extractWarranty low
        deliveryLocation := none
        additionalTerms := [] } }

/-! ## JS number formatting

Only used inside the `pros`/`cons`/`summary` strings and the e-mail body; no
claim inspects these renderings beyond verbatim reproduction of fields that
are already strings. -/

/-- `Math.round` / the rounding used throughout: round half towards `+∞`,
i.e. `⌊q + 1/2⌋`.  Defined through the executable `Rat.floor` so that concrete
scores evaluate inside the kernel; `jsRound_eq_floor` identifies it with the
mathematical floor. -/
def jsRound (q : ℚ) : ℤ := (q + 1 / 2).floor

theorem jsRound_eq_floor (q : ℚ) : jsRound q = ⌊q + 1 / 2⌋ := by
  unfold jsRound
  rw [Rat.floor_def, Rat.floor_def']

/-- `Math.max(0, Math.min(100, z))`. -/
def clamp (z : ℤ) : ℤ := max 0 (min 100 z)

/-- Computable absolute value on `ℚ` (used by the display formatters so that
concrete renderings evaluate inside the kernel). -/
def qabs (q : ℚ) : ℚ := if q < 0 then -q else q

/-- Decimal digits of the fractional part `x ∈ [0, 1)`, most significant
first, up to `fuel` digits.  Exact whenever the expansion terminates within
`fuel` digits — which holds for everything the parsers can produce (at most
two fractional digits, from `$…\.?\d*` price matches). -/
def fracDigits : ℕ → ℚ → List Char
  | 0, _ => []
  | fuel + 1, x =>
    if x = 0 then []
    else
      let d := (x * 10).floor.toNat
      Char.ofNat (48 + d) :: fracDigits fuel (x * 10 - d)

/-- A JS number rendered by a template literal (`Number::toString`): shortest
decimal form; exact on integers and terminating decimals, the only values the
embedded code feeds it. -/
def jsNumToString (q : ℚ) : String :=
  if q.den = 1 then toString q.num
  else
    (if q < 0 then "-" else "") ++ toString (qabs q).floor.toNat ++ "." ++
      (⟨fracDigits 20 (qabs q - (qabs q).floor.toNat)⟩ : String)

/-- Insert `','` thousand separators into a digit string (most significant
first). -/
def commaGroupAux : ℕ → List Char → List Char
  | _, [] => []
  | n, c :: cs =>
    if n ≠ 0 ∧ n % 3 = 0 then ',' :: c :: commaGroupAux (n + 1) cs
    else c :: commaGroupAux (n + 1) cs

/-- `','`-grouping of the decimal digits of a natural number. -/
def groupNat (n : ℕ) : String := ⟨(commaGroupAux 0 (toString n).data.reverse).reverse⟩

/-- Drop trailing `'0'` characters. -/
def stripTrailingZeros (l : List Char) : List Char :=
  (l.reverse.dropWhile (· == '0')).reverse

/-- `Number::toLocaleString()` under the default `en-US` locale: thousand
separators, at most three fraction digits, rounding half away from zero,
without trailing fraction zeros. -/
def toLocaleStringQ (q : ℚ) : String :=
  let a := qabs q
  let scaled := (a * 1000 + 1 / 2).floor.toNat
  let ip := scaled / 1000
  let fr := scaled % 1000
  let frStr : String :=
    if fr = 0 then ""
    else
      let padded := (List.replicate (3 - (toString fr).length) '0') ++ (toString fr).data
      "." ++ (⟨stripTrailingZeros padded⟩ : String)
  (if q < 0 then "-" else "") ++ groupNat ip ++ frStr

/-! ## Data model of proposals and vendor scores -/

/-- One `itemPricing` entry of a parsed proposal (always `[]` in the fallback
parser; carried for shape fidelity). -/
structure ItemPricing where
  itemName : Option String
  quantity : Option ℚ
  unitPrice : Option ℚ
  totalPrice : Option ℚ
  notes : Option String
deriving DecidableEq, Repr

/-- A parsed vendor proposal (`parsedData` in the Proposal schema / the JSON
shape produced by `fallbackParseProposal`). -/
structure ProposalData where
  totalPrice : Option ℚ
  itemPricing : List ItemPricing
  deliveryTimeline : Option String
  deliveryDays : Option ℚ
  paymentTerms : Option String
  warranty : Option String
  validityPeriod : Option String
  conditions : List String
  notes : Option String
deriving DecidableEq, Repr

/-- A populated vendor reference (`proposal.vendorId` after
`.populate('vendorId', 'name email company')`).  A Mongo document's `_id` is
always a truthy ObjectId string and `name` is a required schema field, so
`p.vendorId?._id || p.vendorId` is modelled by `_id` directly. -/
structure VendorRef where
  _id : String
  name : String
deriving DecidableEq, Repr

/-- A proposal document as consumed by the comparison layer. -/
structure Proposal where
  vendorId : VendorRef
  parsedData : Option ProposalData
deriving DecidableEq, Repr

/-- `p.parsedData?.totalPrice || 0` (both missing data and a falsy price give
`0`). -/
def tpOf (p : Proposal) : ℚ := (p.parsedData.bind ProposalData.totalPrice).getD 0

/-- Truthiness of `p.parsedData?.totalPrice`. -/
def truthyPrice (p : Proposal) : Bool :=
  match p.parsedData.bind ProposalData.totalPrice with
  | some v => v != 0
  | none => false

/-- `p.parsedData?.deliveryDays || 999` (`999` is the "unknown" sentinel; a
present-but-`0` value is falsy and also becomes `999`). -/
def dlOf (p : Proposal) : ℚ :=
  match p.parsedData.bind ProposalData.deliveryDays with
  | some v => if v = 0 then 999 else v
  | none => 999

/-- Truthiness of `p.parsedData?.warranty` (the empty string is falsy). -/
def warrantyTruthy (p : Proposal) : Bool :=
  match p.parsedData.bind ProposalData.warranty with
  | some w => w != ""
  | none => false

/-- `proposals.filter(pr => pr.parsedData?.totalPrice).map(pr => pr.parsedData.totalPrice)`. -/
def truthyPrices (ps : List Proposal) : List ℚ :=
  ps.filterMap fun p =>
    match p.parsedData.bind ProposalData.totalPrice with
    | some v => if v = 0 then none else some v
    | none => none

/-- `Math.max(...proposals.map(pr => pr.parsedData?.totalPrice || 0)) || 1`.
`Math.max` of an empty spread is `-Infinity` (truthy); every claim concerns a
non-empty proposal list, where the fold below is `Math.max`; the `[]` value is
junk needed only for totality. -/
def maxPriceOf (ps : List Proposal) : ℚ :=
  let m : ℚ :=
    match ps.map tpOf with
    | [] => 0
    | a :: t => t.foldl max a
  if m = 0 then 1 else m

/-- `Math.min(...proposals.filter(pr => pr.parsedData?.totalPrice).map(…)) || 0`.
`Math.min` of an empty spread is `+Infinity` (truthy), but the value is only
consumed in the `price > 0` branch of the price score, where the filtered list
necessarily contains this proposal's own price; the `[]` value is junk needed
only for totality.  For a non-empty filtered list the fold is `Math.min`,
which is non-zero because every entry is truthy, so `|| 0` never fires. -/
def minPriceOf (ps : List Proposal) : ℚ :=
  match truthyPrices ps with
  | [] => 0
  | a :: t => t.foldl min a

/-- `price > 0 ? Math.round(100 - ((price - minPrice) / (maxPrice - minPrice || 1)) * 50) : 50`
(aiService line 430), before the clamping applied when the result object is
built. -/
def priceScoreRaw (ps : List Proposal) (p : Proposal) : ℤ :=
  if 0 < tpOf p then
    jsRound (100 - ((tpOf p - minPriceOf ps) /
      (if maxPriceOf ps - minPriceOf ps = 0 then 1 else maxPriceOf ps - minPriceOf ps)) * 50)
  else 50

/-- `delivery < 999 ? Math.round(100 - (delivery / 60) * 50) : 50`
(aiService line 431), before clamping. -/
def deliveryScoreRaw (p : Proposal) : ℤ :=
  if dlOf p < 999 then jsRound (100 - dlOf p / 60 * 50) else 50

/-- `p.parsedData?.warranty ? 80 : 60` (aiService line 432); never clamped. -/
def termsScoreOf (p : Proposal) : ℤ := if warrantyTruthy p then 80 else 60

/-- `Math.round((priceScore + deliveryScore + termsScore) / 3)` (aiService
line 433) — computed from the *unclamped* sub-scores. -/
def overallScoreRaw (ps : List Proposal) (p : Proposal) : ℤ :=
  jsRound (((priceScoreRaw ps p + deliveryScoreRaw p + termsScoreOf p : ℤ) : ℚ) / 3)

/-- One entry of the `vendorScores` array. -/
structure VendorScore where
  vendorId : String
  vendorName : String
  priceScore : ℤ
  deliveryScore : ℤ
  termsScore : ℤ
  overallScore : ℤ
  pros : List String
  cons : List String
  summary : String
deriving DecidableEq, Repr

/-- The body of `proposals.map(p => …)` inside `fallbackCompareProposals`
(aiService lines 420–453). -/
def scoreProposal (ps : List Proposal) (p : Proposal) : VendorScore :=
  let price := tpOf p
  let delivery := dlOf p
  let vendorName := if p.vendorId.name = "" then "Unknown Vendor" else p.vendorId.name
  { vendorId := p.vendorId._id
    vendorName := vendorName
    priceScore := clamp (priceScoreRaw ps p)
    deliveryScore := clamp (deliveryScoreRaw p)
    termsScore := termsScoreOf p
    overallScore := clamp (overallScoreRaw ps p)
    pros :=
      [if 0 < price then "Quoted price: $" ++ toLocaleStringQ price else "Price provided",
       if delivery < 999 then "Delivery in " ++ jsNumToString delivery ++ " days"
       else "Delivery timeline specified"] ++
      (match p.parsedData.bind ProposalData.warranty with
       | some w => if w ≠ "" then ["Warranty: " ++ w] else []
       | none => [])
    cons :=
      (if truthyPrice p then [] else ["Price not clearly specified"]) ++
      (if warrantyTruthy p then [] else ["No warranty information"])
    summary :=
      vendorName ++ " offers " ++
        (if 0 < price then "$" ++ toLocaleStringQ price else "competitive pricing") ++
        " with " ++
        (if delivery < 999 then jsNumToString delivery ++ " days" else "flexible") ++
        " delivery." }

/-- The sort order of `vendorScores.sort((a, b) => b.overallScore - a.overallScore)`:
`a` may stay before `b` iff the comparator is `≤ 0`. -/
def vsDescLe (a b : VendorScore) : Prop := b.overallScore ≤ a.overallScore

instance : DecidableRel vsDescLe := fun a b =>
  inferInstanceAs (Decidable (b.overallScore ≤ a.overallScore))

/-- The `comparison` sub-object of a comparison result. -/
structure ComparisonText where
  summary : String
  priceAnalysis : String
  deliveryAnalysis : String
  termsAnalysis : String
deriving DecidableEq, Repr

/-- The `recommendation` sub-object.  `alternativeOption := none` models both
an explicit `null` and an absent key. -/
structure Recommendation where
  recommendedVendorId : String
  recommendedVendorName : String
  reasoning : String
  risks : List String
  alternativeOption : Option String
deriving DecidableEq, Repr

/-- The full comparison analysis object. -/
structure ComparisonResult where
  comparison : ComparisonText
  vendorScores : List VendorScore
  recommendation : Recommendation
deriving DecidableEq, Repr

/-- Junk value standing in for `vendorScores[0]` on an empty input, where the
JS code would throw a `TypeError` dereferencing `undefined`; unobservable
under the claims, which all concern non-empty proposal lists. -/
def defaultVendorScore : VendorScore :=
  { vendorId := "", vendorName := "", priceScore := 0, deliveryScore := 0,
    termsScore := 0, overallScore := 0, pros := [], cons := [], summary := "" }

/-- An RFP document as stored by the RFP schema and consumed by
`fallbackCompareProposals` (which ignores it) and `fallbackGenerateEmail`. -/
structure RFPDoc where
  title : String
  description : Option String
  budget : Option ℚ
  deliveryDays : Option ℚ
  items : List Item
  requirements : Requirements
deriving DecidableEq, Repr

/-- `fallbackCompareProposals` (aiService lines 419–475).  The `rfp` argument
is unused by the source as well.  `Array.prototype.sort` with the comparator
`(a, b) => b.overallScore - a.overallScore` is modelled by the stable
`List.insertionSort` on `vsDescLe` (see the header notes). -/
def fallbackCompareProposals (rfp : RFPDoc) (proposals : List Proposal) : ComparisonResult :=
  let sorted := List.insertionSort vsDescLe (proposals.map (scoreProposal proposals))
  let recommended := sorted.headD defaultVendorScore
  { comparison :=
      { summary := "Compared " ++ toString proposals.length ++
          " vendor proposals based on price, delivery, and terms."
        priceAnalysis := "Pricing compared based on total quoted amounts."
        deliveryAnalysis := "Delivery timelines compared based on stated delivery days."
        termsAnalysis := "Terms evaluated based on warranty and payment conditions." }
    vendorScores := sorted
    recommendation :=
      { recommendedVendorId := recommended.vendorId
        recommendedVendorName := recommended.vendorName
        reasoning := recommended.vendorName ++ " has the highest overall score of " ++
          toString recommended.overallScore ++
          "/100 based on price competitiveness, delivery timeline, and terms."
        risks := ["This is a simplified analysis. Manual review recommended."]
        alternativeOption :=
          match sorted with
          | _ :: second :: _ => some (second.vendorName ++ " as second choice")
          | _ => none } }

/-! ## The fallback proposal parser (`fallbackParseProposal`, aiService lines
272–312) -/

/-- Anchored attempt of one `\$[\d,]+\.?\d*` price match; returns
(matched text, rest of input). -/
def priceAt : List Char → Option (List Char × List Char)
  | [] => none
  | c0 :: r =>
    if c0 = '$' then
      if (r.takeWhile isDigitComma).isEmpty then none
      else
        match r.dropWhile isDigitComma with
        | c1 :: r2 =>
          if c1 = '.' then
            some (c0 :: r.takeWhile isDigitComma ++ c1 :: r2.takeWhile Char.isDigit,
              r2.dropWhile Char.isDigit)
          else some (c0 :: r.takeWhile isDigitComma, c1 :: r2)
        | [] => some (c0 :: r.takeWhile isDigitComma, [])
    else none

theorem priceAt_length {l m rest : List Char} (h : priceAt l = some (m, rest)) :
    rest.length < l.length := by
  cases l with
  | nil => simp [priceAt] at h
  | cons c0 r =>
    simp only [priceAt] at h
    by_cases hc : c0 = '$'
    · rw [if_pos hc] at h
      by_cases he : (r.takeWhile isDigitComma).isEmpty
      · rw [if_pos he] at h; cases h
      · rw [if_neg he] at h
        have h1 : (r.dropWhile isDigitComma).length < r.length := length_dropWhile_lt he
        cases hr : r.dropWhile isDigitComma with
        | nil =>
          rw [hr] at h
          simp only [Option.some.injEq, Prod.mk.injEq] at h
          obtain ⟨-, h2⟩ := h
          subst h2
          simp
        | cons c1 r2 =>
          rw [hr] at h
          rw [hr] at h1
          dsimp only at h
          simp only [List.length_cons] at h1
          by_cases hdot : c1 = '.'
          · rw [if_pos hdot] at h
            simp only [Option.some.injEq, Prod.mk.injEq] at h
            obtain ⟨-, h2⟩ := h
            subst h2
            have h3 := length_dropWhile_le Char.isDigit r2
            simp only [List.length_cons]
            omega
          · rw [if_neg hdot] at h
            simp only [Option.some.injEq, Prod.mk.injEq] at h
            obtain ⟨-, h2⟩ := h
            subst h2
            simp only [List.length_cons]
            omega
    · rw [if_neg hc] at h; cases h

/-- Iterated global matching (`regex.exec` with advancing `lastIndex`) for an
anchored matcher `f` that always consumes at least one character; the fuel
bounds the number of scan positions and is instantiated with the input
length. -/
def scanAllF {α : Type} (f : List Char → Option (α × List Char)) :
    ℕ → List Char → List α
  | 0, _ => []
  | _ + 1, [] => []
  | n + 1, c :: cs =>
    match f (c :: cs) with
    | some (a, rest) => a :: scanAllF f n rest
    | none => scanAllF f n cs

theorem scanAllF_fuel {α : Type} (f : List Char → Option (α × List Char))
    (hf : ∀ l a rest, f l = some (a, rest) → rest.length < l.length) :
    ∀ (m n : ℕ) (l : List Char), l.length ≤ m → l.length ≤ n →
      scanAllF f m l = scanAllF f n l := by
  intro m
  induction m with
  | zero =>
    intro n l hm _
    have : l = [] := List.length_eq_zero.mp (Nat.le_zero.mp hm)
    subst this
    cases n <;> rfl
  | succ m ih =>
    intro n l hm hn
    cases l with
    | nil => cases n <;> rfl
    | cons c cs =>
      cases n with
      | zero => simp at hn
      | succ n' =>
        simp only [List.length_cons] at hm hn
        simp only [scanAllF]
        cases ht : f (c :: cs) with
        | none => exact ih n' cs (by omega) (by omega)
        | some res =>
          obtain ⟨a, rest⟩ := res
          have := hf _ _ _ ht
          simp only [List.length_cons] at this
          dsimp only
          rw [ih n' rest (by omega) (by omega)]

/-- `emailBody.match(/\$[\d,]+\.?\d*\/g) || []`: all the price match texts. -/
def scanPrices (l : List Char) : List (List Char) := scanAllF priceAt l.length l

/-- `parseFloat`, restricted to the shapes the price matcher can produce after
`replace(/[$,]/g, '')`: `digits`, `digits.`, `digits.digits`, `.digits`, or an
all-comma match that cleans to `""` / `"."` (⇒ `NaN`, modelled `none`). -/
def parseFloatJS (l : List Char) : Option ℚ :=
  let ds := l.takeWhile Char.isDigit
  match l.dropWhile Char.isDigit with
  | '.' :: r2 =>
    let fs := r2.takeWhile Char.isDigit
    if ds.isEmpty ∧ fs.isEmpty then none
    else some ((natOfDigits ds : ℚ) + (natOfDigits fs : ℚ) / ((10 : ℚ) ^ fs.length))
  | _ => if ds.isEmpty then none else some ((natOfDigits ds : ℚ))

/-- Sequence a list of JS numbers that may contain `NaN`: `Math.max` over a
spread containing a `NaN` is `NaN`. -/
def seqOpts : List (Option ℚ) → Option (List ℚ)
  | [] => some []
  | none :: _ => none
  | some a :: t => (seqOpts t).map (a :: ·)

/-- The keyword alternation `(days?|weeks?|business days?)` of the proposal
delivery pattern. -/
def dayWeekBizAlts : List (List Char × Bool) :=
  [("day".data, true), ("week".data, true), ("business day".data, true)]

/-- The regex fallback proposal parser (`fallbackParseProposal`, aiService
lines 272–312), total on strings.  `totalPrice := none` covers both "no price
matched" (`null`) and the `NaN`-poisoned `Math.max` (an all-comma match);
both are falsy everywhere the comparison layer reads the field. -/
def fallbackParseProposal (emailBody : String) : ProposalData :=
  let text := lowerL emailBody.data
  let prices := (scanPrices emailBody.data).map fun m =>
    parseFloatJS (m.filter fun c => !(c == '$' || c == ','))
  let totalPrice : Option ℚ :=
    if prices.isEmpty then none
    else
      match seqOpts prices with
      | some [] => none
      | some (a :: t) => some (t.foldl max a)
      | none => none
  let deliveryDays : Option ℕ :=
    (scanFirst (tryItemAt dayWeekBizAlts) text).map fun m =>
      if containsSub "week".data m.2.1 then natOfDigits m.1 * 7 else natOfDigits m.1
  { totalPrice := totalPrice
    itemPricing := []
    deliveryTimeline :=
      match deliveryDays with
      | some v => if v = 0 then none else some (toString v ++ " days")
      | none => none
    deliveryDays := deliveryDays.map (fun v => (v : ℚ))
    paymentTerms :=
      if containsSub "net 30".data text then some "Net 30"
      else if containsSub "net 60".data text then some "Net 60"
      else if containsSub "net 15".data text then some "Net 15"
      else none
    warranty := extractWarranty text
    validityPeriod := none
    conditions := []
    notes := some "Parsed using fallback parser" }

/-! ## The two parse operations with their generative-service plumbing

`openai` being `null` (no credentials, aiService lines 3–17) is modelled by
the service parameter being `none`.  A configured service is modelled by the
outcome of the single `chat.completions.create` + `JSON.parse` attempt this
call makes: `Except.error msg` when the call throws or its content fails
`JSON.parse` (both raise inside the same `try`), `Except.ok d` when it yields
parsed data — which is whatever object the model returned, unvalidated.
`emailSubject` and `rfpContext` only ever feed the prompt, so they are
absorbed into the modelled outcome.  A thrown JS exception is an
`Except.error`; `none : Option String` models a `null` string argument, whose
`.toLowerCase()` throws a `TypeError`. -/

/-- The `TypeError` message thrown by `null.toLowerCase()`. -/
def nullToLowerCaseError : String :=
  "Cannot read properties of null (reading 'toLowerCase')"

/-- `fallbackParseRFP` as called on a nullable JS value: throws on `null`,
total on strings. -/
def fallbackParseRFPJS : Option String → Except String RFPData
  | none => .error nullToLowerCaseError
  | some s => .ok (fallbackParseRFP s)

/-- `fallbackParseProposal` as called on a nullable JS value. -/
def fallbackParseProposalJS : Option String → Except String ProposalData
  | none => .error nullToLowerCaseError
  | some s => .ok (fallbackParseProposal s)

/-- The uniform result envelope `{success, data?, usedFallback?, error?}`;
an absent key is modelled by `false` / `none`. -/
structure ParseEnvelope (α : Type) where
  success : Bool
  data : Option α
  usedFallback : Bool
  error : Option String
deriving DecidableEq

/-- `parseRFPFromNaturalLanguage` (aiService lines 120–194).  Unconfigured:
immediate fallback, *not* wrapped in any `try` (lines 122–130), so a fallback
throw escapes.  Configured and successful: the parsed data is returned as-is.
Configured and failing: the fallback runs inside the `catch`, itself guarded
by an inner `try` whose `catch` returns `{success: false, error: error.message}`
— `error` being the *outer* caught error (line 190). -/
def parseRFPFromNaturalLanguage (svc : Option (Except String RFPData))
    (userInput : Option String) : Except String (ParseEnvelope RFPData) :=
  match svc with
  | none =>
    match fallbackParseRFPJS userInput with
    | .ok d => .ok ⟨true, some d, true, none⟩
    | .error e => .error e
  | some (.ok d) => .ok ⟨true, some d, false, none⟩
  | some (.error msg) =>
    match fallbackParseRFPJS userInput with
    | .ok d => .ok ⟨true, some d, true, none⟩
    | .error _ => .ok ⟨false, none, false, some msg⟩

/-- `parseVendorProposal` (aiService lines 199–267).  Unlike the RFP variant,
the fallback call inside the `catch` (line 260) has *no* inner `try`, so a
fallback throw escapes the function on both the unconfigured and the
configured-but-failing path. -/
def parseVendorProposal (svc : Option (Except String ProposalData))
    (emailBody : Option String) : Except String (ParseEnvelope ProposalData) :=
  match svc with
  | none =>
    match fallbackParseProposalJS emailBody with
    | .ok d => .ok ⟨true, some d, true, none⟩
    | .error e => .error e
  | some (.ok d) => .ok ⟨true, some d, false, none⟩
  | some (.error _) =>
    match fallbackParseProposalJS emailBody with
    | .ok d => .ok ⟨true, some d, true, none⟩
    | .error e => .error e

/-! ## The fallback e-mail template (`fallbackGenerateEmail`, aiService lines
554–590) -/

/-- `{subject, body}`. -/
structure EmailContent where
  subject : String
  body : String
deriving DecidableEq, Repr

/-- One item line of the fallback e-mail:
`  • ${item.name}: Quantity ${item.quantity}${item.specifications ? \` (${item.specifications})\` : ''}`. -/
def renderItemLine (it : Item) : String :=
  "  • " ++ it.name ++ ": Quantity " ++ toString it.quantity ++
    (if it.specifications ≠ "" then " (" ++ it.specifications ++ ")" else "")

/-- `rfp.items?.map(…).join('\n') || '  • As per requirements'`.  The joined
string is falsy (empty) exactly when the item list is empty, since every
rendered line is non-empty. -/
def itemsListStr (items : List Item) : String :=
  match items with
  | [] => "  • As per requirements"
  | _ => String.intercalate "\n" (items.map renderItemLine)

/-- The part of the e-mail body template before the interpolated item list. -/
def emailBodyPre (rfp : RFPDoc) (vendorName : String) : String :=
  "Dear " ++ vendorName ++
    ",\n\nWe are pleased to invite you to submit a proposal for the following procurement requirement:\n\nPROJECT: " ++
    rfp.title ++ "\n" ++
    (match rfp.description with
     | some d => if d ≠ "" then "\nDESCRIPTION: " ++ d else ""
     | none => "") ++
    "\n\nITEMS REQUIRED:\n"

/-- The part of the e-mail body template after the interpolated item list. -/
def emailBodyPost (rfp : RFPDoc) : String :=
  "\n\nBUDGET: " ++
    (match rfp.budget with
     | some b => if b ≠ 0 then "$" ++ toLocaleStringQ b else "Open to competitive quotes"
     | none => "Open to competitive quotes") ++
    "\nDELIVERY REQUIREMENT: " ++
    (match rfp.deliveryDays with
     | some d => if d ≠ 0 then "Within " ++ jsNumToString d ++ " days" else "To be discussed"
     | none => "To be discussed") ++
    "\nPAYMENT TERMS: " ++
    (match rfp.requirements.paymentTerms with
     | some t => if t ≠ "" then t else "Standard terms"
     | none => "Standard terms") ++
    "\nWARRANTY: " ++
    (match rfp.requirements.warranty with
     | some w => if w ≠ "" then w else "Standard warranty expected"
     | none => "Standard warranty expected") ++
    "\n\nPlease provide:\n1. Itemized pricing for all items\n2. Total cost including any applicable taxes\n3. Delivery timeline\n4. Warranty terms\n5. Payment terms\n6. Any conditions or special requirements\n\nWe look forward to receiving your proposal.\n\nBest regards,\nProcurement Team"

/-- `fallbackGenerateEmail` (aiService lines 554–590). -/
def fallbackGenerateEmail (rfp : RFPDoc) (vendorName : String) : EmailContent :=
  { subject := "Request for Proposal: " ++ rfp.title
    body := emailBodyPre rfp vendorName ++ itemsListStr rfp.items ++ emailBodyPost rfp }

/-! ## The comparison HTTP handler (`rfpController.compareProposals`,
lines 353–436 of the controller).

The Mongo lookups are external collaborators: the handler is modelled as a
function of their results — the RFP found (or not), and the list of proposals
with `isParsingComplete: true` for this RFP, populated with their vendors.
The per-proposal score persistence and status updates of the success path
write to the store and do not alter the response body, which is what the
claims are about. -/

/-- The envelope returned by the comparison engine (`aiService.compareProposals`). -/
structure CompareEnvelope where
  success : Bool
  data : Option ComparisonResult
  error : Option String
deriving DecidableEq

/-- The response of the compare endpoint, by status and body. -/
inductive CompareResp where
  | notFound
  | badRequestNoProposals
  | okSingle (comparison : Option ComparisonResult) (recommendation : Recommendation)
      (proposals : List Proposal)
  | serverError (error : Option String)
  | okCompared (data : Option ComparisonResult)
deriving DecidableEq

/-- `compareProposals` of the RFP controller, parametrised by the comparison
engine it would delegate to. -/
def compareProposalsHandler (engine : RFPDoc → List Proposal → CompareEnvelope)
    (rfpLookup : Option RFPDoc) (parsedProposals : List Proposal) : CompareResp :=
  match rfpLookup with
  | none => .notFound
  | some rfp =>
    match parsedProposals with
    | [] => .badRequestNoProposals
    | [p] =>
      .okSingle none
        { recommendedVendorId := p.vendorId._id
          recommendedVendorName := p.vendorId.name
          reasoning := "Only one proposal received"
          risks := ["Single vendor option - no competitive comparison possible"]
          alternativeOption := none }
        [p]
    | ps =>
      let result := engine rfp ps
      if result.success then .okCompared result.data
      else .serverError result.error

/-! ## General lemmas about the scoring arithmetic -/

theorem clamp_mem (z : ℤ) : 0 ≤ clamp z ∧ clamp z ≤ 100 := by
  unfold clamp
  omega

theorem clamp_eq_self {z : ℤ} (h0 : 0 ≤ z) (h1 : z ≤ 100) : clamp z = z := by
  unfold clamp
  omega

theorem jsRound_le_of_le {q : ℚ} {hi : ℤ} (h : q ≤ (hi : ℚ)) : jsRound q ≤ hi := by
  rw [jsRound_eq_floor]
  exact Int.le_of_lt_add_one (Int.floor_lt.mpr (by push_cast; linarith))

theorem le_jsRound_of_le {q : ℚ} {lo : ℤ} (h : (lo : ℚ) ≤ q) : lo ≤ jsRound q := by
  rw [jsRound_eq_floor]
  exact Int.le_floor.mpr (by push_cast; linarith)

theorem le_foldl_max : ∀ (t : List ℚ) (a x : ℚ), x ∈ a :: t → x ≤ t.foldl max a := by
  intro t
  induction t with
  | nil =>
    intro a x hx
    simp only [List.mem_singleton] at hx
    simp [hx]
  | cons b t ih =>
    intro a x hx
    simp only [List.foldl_cons]
    rcases List.mem_cons.mp hx with h | h
    · subst h
      exact le_trans (le_max_left x b) (ih (max x b) _ (List.mem_cons_self _ _))
    · rcases List.mem_cons.mp h with h' | h'
      · subst h'
        exact le_trans (le_max_right a x) (ih (max a x) _ (List.mem_cons_self _ _))
      · exact ih (max a b) x (List.mem_cons_of_mem _ h')

theorem foldl_min_le : ∀ (t : List ℚ) (a x : ℚ), x ∈ a :: t → t.foldl min a ≤ x := by
  intro t
  induction t with
  | nil =>
    intro a x hx
    simp only [List.mem_singleton] at hx
    simp [hx]
  | cons b t ih =>
    intro a x hx
    simp only [List.foldl_cons]
    rcases List.mem_cons.mp hx with h | h
    · subst h
      exact le_trans (ih (min x b) _ (List.mem_cons_self _ _)) (min_le_left x b)
    · rcases List.mem_cons.mp h with h' | h'
      · subst h'
        exact le_trans (ih (min a x) _ (List.mem_cons_self _ _)) (min_le_right a x)
      · exact ih (min a b) x (List.mem_cons_of_mem _ h')

/-- A proposal with a positive effective price contributes its price to the
truthy-price list. -/
theorem tpOf_mem_truthyPrices {ps : List Proposal} {p : Proposal}
    (hp : p ∈ ps) (hpos : 0 < tpOf p) : tpOf p ∈ truthyPrices ps := by
  unfold truthyPrices
  apply List.mem_filterMap.mpr
  refine ⟨p, hp, ?_⟩
  unfold tpOf at hpos ⊢
  cases hb : p.parsedData.bind ProposalData.totalPrice with
  | none => rw [hb] at hpos; simp at hpos
  | some v =>
    rw [hb] at hpos
    simp only [Option.getD_some] at hpos
    dsimp only
    rw [if_neg (ne_of_gt hpos)]
    simp

theorem minPriceOf_le {ps : List Proposal} {p : Proposal}
    (hp : p ∈ ps) (hpos : 0 < tpOf p) : minPriceOf ps ≤ tpOf p := by
  have hmem := tpOf_mem_truthyPrices hp hpos
  unfold minPriceOf
  cases ht : truthyPrices ps with
  | nil => rw [ht] at hmem; cases hmem
  | cons a t =>
    rw [ht] at hmem
    exact foldl_min_le t a _ hmem

theorem le_maxPriceOf {ps : List Proposal} {p : Proposal}
    (hp : p ∈ ps) (hpos : 0 < tpOf p) : tpOf p ≤ maxPriceOf ps := by
  have hmem : tpOf p ∈ ps.map tpOf := List.mem_map_of_mem tpOf hp
  unfold maxPriceOf
  cases hm : ps.map tpOf with
  | nil => rw [hm] at hmem; cases hmem
  | cons a t =>
    rw [hm] at hmem
    have hle : tpOf p ≤ t.foldl max a := le_foldl_max t a _ hmem
    by_cases hz : t.foldl max a = 0
    · rw [if_pos hz]
      rw [hz] at hle
      linarith
    · rw [if_neg hz]
      exact hle

/-- The raw price score always lies in `[50, 100]` for a proposal of the list:
in the `price > 0` branch the ratio is in `[0, 1]`, otherwise the score is the
constant 50. -/
theorem priceScoreRaw_mem {ps : List Proposal} {p : Proposal} (hp : p ∈ ps) :
    50 ≤ priceScoreRaw ps p ∧ priceScoreRaw ps p ≤ 100 := by
  unfold priceScoreRaw
  by_cases hpos : 0 < tpOf p
  · rw [if_pos hpos]
    have hmin := minPriceOf_le hp hpos
    have hmax := le_maxPriceOf hp hpos
    set mn := minPriceOf ps with hmn
    set mx := maxPriceOf ps with hmx
    have hD : (0 : ℚ) < (if mx - mn = 0 then 1 else mx - mn) := by
      by_cases h0 : mx - mn = 0
      · rw [if_pos h0]; norm_num
      · rw [if_neg h0]
        have : mn ≤ mx := le_trans hmin hmax
        rcases lt_or_eq_of_le this with h | h
        · linarith
        · exact absurd (by rw [h]; ring) h0
    have hnum0 : (0 : ℚ) ≤ tpOf p - mn := by linarith
    have hratio1 : (tpOf p - mn) / (if mx - mn = 0 then 1 else mx - mn) ≤ 1 := by
      rw [div_le_one hD]
      by_cases h0 : mx - mn = 0
      · rw [if_pos h0]
        have : tpOf p - mn ≤ 0 := by linarith
        linarith
      · rw [if_neg h0]
        linarith
    have hratio0 : (0 : ℚ) ≤ (tpOf p - mn) / (if mx - mn = 0 then 1 else mx - mn) :=
      div_nonneg hnum0 (le_of_lt hD)
    constructor
    · exact le_jsRound_of_le (by push_cast; linarith)
    · exact jsRound_le_of_le (by push_cast; linarith)
  · rw [if_neg hpos]
    omega

/-! ## Definitional projection lemmas (shapes of the built records) -/

theorem fallbackParseRFP_items_def (s : String) :
    (fallbackParseRFP s).items =
      (if (applyScreen s.data (applyRam s.data (extractItems s.data))).isEmpty
       then [placeholderItem s]
       else applyScreen s.data (applyRam s.data (extractItems s.data))) := rfl

theorem scoreProposal_priceScore (ps : List Proposal) (p : Proposal) :
    (scoreProposal ps p).priceScore = clamp (priceScoreRaw ps p) := rfl

theorem scoreProposal_deliveryScore (ps : List Proposal) (p : Proposal) :
    (scoreProposal ps p).deliveryScore = clamp (deliveryScoreRaw p) := rfl

theorem scoreProposal_termsScore (ps : List Proposal) (p : Proposal) :
    (scoreProposal ps p).termsScore = termsScoreOf p := rfl

theorem scoreProposal_overallScore (ps : List Proposal) (p : Proposal) :
    (scoreProposal ps p).overallScore = clamp (overallScoreRaw ps p) := rfl

theorem compare_vendorScores_def (rfp : RFPDoc) (ps : List Proposal) :
    (fallbackCompareProposals rfp ps).vendorScores =
      List.insertionSort vsDescLe (ps.map (scoreProposal ps)) := rfl

theorem compare_recommendedId_def (rfp : RFPDoc) (ps : List Proposal) :
    (fallbackCompareProposals rfp ps).recommendation.recommendedVendorId =
      ((List.insertionSort vsDescLe (ps.map (scoreProposal ps))).headD
        defaultVendorScore).vendorId := rfl

theorem compare_recommendedName_def (rfp : RFPDoc) (ps : List Proposal) :
    (fallbackCompareProposals rfp ps).recommendation.recommendedVendorName =
      ((List.insertionSort vsDescLe (ps.map (scoreProposal ps))).headD
        defaultVendorScore).vendorName := rfl

theorem compare_alternative_def (rfp : RFPDoc) (ps : List Proposal) :
    (fallbackCompareProposals rfp ps).recommendation.alternativeOption =
      (match List.insertionSort vsDescLe (ps.map (scoreProposal ps)) with
       | _ :: second :: _ => some (second.vendorName ++ " as second choice")
       | _ => none) := rfl

instance : IsTotal VendorScore vsDescLe :=
  ⟨fun a b => by unfold vsDescLe; exact le_total b.overallScore a.overallScore⟩

instance : IsTrans VendorScore vsDescLe :=
  ⟨fun a b c hab hbc => by
    unfold vsDescLe at hab hbc ⊢
    exact le_trans hbc hab⟩

/-! ## Shared concrete fixtures -/

/-- An arbitrary RFP document; `fallbackCompareProposals` ignores its `rfp`
argument entirely, so any value serves the comparison claims. -/
def sampleRFPDoc : RFPDoc :=
  { title := "Laptop Procurement", description := none, budget := none,
    deliveryDays := none, items := [], requirements := ⟨none, none, none, []⟩ }

/-! ## Claim C4 -/

set_option maxRecDepth 100000 in
/-- Claim C4: on the input `"We need 5 laptops with 16GB RAM and 2 monitors
24 inch, budget $10000, delivery in 2 weeks, Net 30 payment, 2 year warranty"`
the regex fallback extractor returns exactly the two items
`Laptop×5 ("16GB RAM")` and `Monitor×2 ("24 inch")`, budget `10000`,
`deliveryDays = 14`, payment terms `"Net 30"` and warranty
`"2 years warranty"`. -/
theorem C4_regex_scenario :
    fallbackParseRFP "We need 5 laptops with 16GB RAM and 2 monitors 24 inch, budget $10000, delivery in 2 weeks, Net 30 payment, 2 year warranty" =
      { title := "Laptop and Monitor Procurement"
        description := "We need 5 laptops with 16GB RAM and 2 monitors 24 inch, budget $10000, delivery in 2 weeks, Net 30 payment, 2 year warranty"
        budget := some (JSNum.val 10000)
        currency := "USD"
        deliveryDays := some 14
        items := [{ name := "Laptop", quantity := 5, specifications := "16GB RAM" },
                  { name := "Monitor", quantity := 2, specifications := "24 inch" }]
        requirements := { paymentTerms := some "Net 30"
                          warranty := some "2 years warranty"
                          deliveryLocation := none
                          additionalTerms := [] } } := by
  decide

/-! ## Claim C9 -/

/-- Claim C9: when the comparison endpoint finds the RFP and exactly one fully
parsed proposal, it returns the success response with a trivial
recommendation naming that proposal's vendor — `comparison` is `null`, the
reasoning is "Only one proposal received" with the single-vendor risk note —
and the comparison engine is never consulted: the response is the same for
every engine. -/
theorem C9_single_proposal_shortcircuit
    (engine engine2 : RFPDoc → List Proposal → CompareEnvelope)
    (rfp : RFPDoc) (p : Proposal) :
    compareProposalsHandler engine (some rfp) [p] =
      CompareResp.okSingle none
        { recommendedVendorId := p.vendorId._id
          recommendedVendorName := p.vendorId.name
          reasoning := "Only one proposal received"
          risks := ["Single vendor option - no competitive comparison possible"]
          alternativeOption := none }
        [p] ∧
    compareProposalsHandler engine (some rfp) [p] =
      compareProposalsHandler engine2 (some rfp) [p] :=
  ⟨rfl, rfl⟩

/-! ## Claim C3 -/

/-- Claim C3, counterexample: with a configured-but-failing service and a
`null` email body (on which the fallback parser throws), `parseVendorProposal`
lets the `TypeError` escape instead of returning a `{success: false, error}`
envelope — the `catch` block of `parseVendorProposal` calls the fallback with
no inner `try` (aiService line 260), unlike `parseRFPFromNaturalLanguage`. -/
theorem C3_counterexample :
    parseVendorProposal (some (Except.error "OpenAI request failed")) none =
      Except.error nullToLowerCaseError := rfl

/-- Claim C3, amended: for both parse operations, an unconfigured service
skips the network attempt and yields the fallback success envelope with
`usedFallback`, and a configured-but-failing service falls back the same way;
but only `parseRFPFromNaturalLanguage`'s configured path converts a fallback
throw into a `{success: false, error}` envelope (carrying the *service*
error's message) — in the unconfigured path of both operations and in
`parseVendorProposal`'s configured path, a fallback throw escapes as an
exception. -/
theorem C3_amended (inp : Option String) (msg : String) :
    parseRFPFromNaturalLanguage none inp =
      (fallbackParseRFPJS inp).map (fun d => ⟨true, some d, true, none⟩) ∧
    parseVendorProposal none inp =
      (fallbackParseProposalJS inp).map (fun d => ⟨true, some d, true, none⟩) ∧
    parseRFPFromNaturalLanguage (some (Except.error msg)) inp =
      (match fallbackParseRFPJS inp with
       | Except.ok d => Except.ok ⟨true, some d, true, none⟩
       | Except.error _ => Except.ok ⟨false, none, false, some msg⟩) ∧
    parseVendorProposal (some (Except.error msg)) inp =
      (fallbackParseProposalJS inp).map (fun d => ⟨true, some d, true, none⟩) ∧
    (∀ d, parseRFPFromNaturalLanguage (some (Except.ok d)) inp =
      Except.ok ⟨true, some d, false, none⟩) ∧
    (∀ d, parseVendorProposal (some (Except.ok d)) inp =
      Except.ok ⟨true, some d, false, none⟩) := by
  refine ⟨?_, ?_, ?_, ?_, fun d => rfl, fun d => rfl⟩ <;> cases inp <;> rfl

/-! ## Claim C2 -/

/-- A syntactically valid JSON object the generative service can return for
an RFP extraction: all fields present but `items` empty. -/
def c2ServiceData : RFPData :=
  { title := "Procurement", description := "", budget := none, currency := "USD",
    deliveryDays := none, items := [], requirements := ⟨none, none, none, []⟩ }

/-- Claim C2, counterexample: on the generative path the parsed service data
is returned unvalidated (aiService lines 170–174), so for the input
`"We need 5 laptops"` and a service answer whose `items` is empty, the
operation returns `success = true` with an `items` array of length `0 < 1`,
refuting the claimed invariant for the operation as a whole. -/
theorem C2_counterexample :
    parseRFPFromNaturalLanguage (some (Except.ok c2ServiceData)) (some "We need 5 laptops") =
      Except.ok ⟨true, some c2ServiceData, false, none⟩ ∧
    c2ServiceData.items.length = 0 :=
  ⟨rfl, rfl⟩

/-- Claim C2, amended: for every *string* input the operation never throws
(it returns a value of the envelope type for every service state), every
result that comes from the regex fallback — service unconfigured, or
configured and failing — is `success = true` with `usedFallback = true` and
the fallback data, whose `items` always has length `≥ 1`; and when zero
category patterns matched, `items` is exactly the placeholder
`{name: "Items as specified", quantity: 1, specifications: first 100
characters of the input}`.  (Only the generative path can deliver an
`items`-less result, per the counterexample; and only a `null` input can make
the fallback itself throw.) -/
theorem C2_amended (s : String) (svc : Option (Except String RFPData)) :
    (∃ env, parseRFPFromNaturalLanguage svc (some s) = Except.ok env) ∧
    parseRFPFromNaturalLanguage none (some s) =
      Except.ok ⟨true, some (fallbackParseRFP s), true, none⟩ ∧
    (∀ msg, parseRFPFromNaturalLanguage (some (Except.error msg)) (some s) =
      Except.ok ⟨true, some (fallbackParseRFP s), true, none⟩) ∧
    1 ≤ (fallbackParseRFP s).items.length ∧
    (extractItems s.data = [] → (fallbackParseRFP s).items = [placeholderItem s]) := by
  refine ⟨?_, rfl, fun msg => rfl, ?_, ?_⟩
  · cases svc with
    | none => exact ⟨⟨true, some (fallbackParseRFP s), true, none⟩, rfl⟩
    | some out =>
      cases out with
      | ok d => exact ⟨⟨true, some d, false, none⟩, rfl⟩
      | error msg => exact ⟨⟨true, some (fallbackParseRFP s), true, none⟩, rfl⟩
  · rw [fallbackParseRFP_items_def]
    cases he : applyScreen s.data (applyRam s.data (extractItems s.data)) with
    | nil => simp
    | cons a t => simp
  · intro hempty
    have h1 : applyRam s.data (extractItems s.data) = [] := by
      unfold applyRam
      rw [hempty]
      cases scanFirst ramAt s.data <;> rfl
    have h2 : applyScreen s.data (applyRam s.data (extractItems s.data)) = [] := by
      rw [h1]
      unfold applyScreen
      cases scanFirst screenAt s.data <;> rfl
    rw [fallbackParseRFP_items_def, h2]
    rfl

/-- Claim C2, witness: a concrete input with no category match, where the
amended theorem yields the fallback envelope and the placeholder item. -/
theorem C2_amended_witness :
    parseRFPFromNaturalLanguage none (some "please send a quote") =
      Except.ok ⟨true, some (fallbackParseRFP "please send a quote"), true, none⟩ ∧
    (fallbackParseRFP "please send a quote").items =
      [placeholderItem "please send a quote"] :=
  ⟨(C2_amended "please send a quote" none).2.1,
   (C2_amended "please send a quote" none).2.2.2.2 (by decide)⟩

/-! ## Claim C10 -/

theorem inch_ne_ram (m n : List Char) :
    ((⟨m⟩ : String) ++ " inch") ≠ ((⟨n⟩ : String) ++ "GB RAM") := by
  intro h
  have hd : m ++ " inch".data = n ++ "GB RAM".data := by
    have := congrArg String.data h
    simpa [String.data_append] using this
  have hrev := congrArg List.reverse hd
  rw [List.reverse_append, List.reverse_append] at hrev
  have e1 : (" inch".data).reverse = ['h', 'c', 'n', 'i', ' '] := by decide
  have e2 : ("GB RAM".data).reverse = ['M', 'A', 'R', ' ', 'B', 'G'] := by decide
  rw [e1, e2] at hrev
  simp only [List.cons_append] at hrev
  have hhead : 'h' = 'M' := by
    have := congrArg (fun l => l.headD ' ') hrev
    simpa using this
  exact absurd hhead (by decide)

theorem extractItems_spec_empty {u : List Char} {j : Item}
    (hj : j ∈ extractItems u) : j.specifications = "" := by
  unfold extractItems at hj
  rcases List.mem_map.mp hj with ⟨x, _, hx⟩
  rw [← hx]
  rfl

/-- Claim C10: the `specifications` field is a single-assignment slot.  For
every input whose first extracted item's name contains "monitor" and on which
both the RAM pattern and the screen-size pattern match, the screen-size
assignment (aiService lines 73–79) overwrites the RAM specification attached
to that same first item (lines 67–70): the returned first item carries
`"<n> inch"`, every other item carries the empty specification, and no
returned item carries the RAM string — it is silently dropped. -/
theorem C10_screen_overwrites_ram (s : String) (n m : List Char) (it : Item)
    (rest : List Item)
    (hram : scanFirst ramAt s.data = some n)
    (hscr : scanFirst screenAt s.data = some m)
    (hitems : extractItems s.data = it :: rest)
    (hmon : containsSub "monitor".data (lowerL it.name.data) = true) :
    (fallbackParseRFP s).items =
      { it with specifications := (⟨m⟩ : String) ++ " inch" } :: rest ∧
    ∀ j ∈ (fallbackParseRFP s).items,
      j.specifications ≠ (⟨n⟩ : String) ++ "GB RAM" := by
  have hA : applyRam s.data (extractItems s.data) =
      { it with specifications := (⟨n⟩ : String) ++ "GB RAM" } :: rest := by
    unfold applyRam
    rw [hram, hitems]
  have hS : applyScreen s.data (applyRam s.data (extractItems s.data)) =
      { it with specifications := (⟨m⟩ : String) ++ " inch" } :: rest := by
    rw [hA]
    unfold applyScreen
    rw [hscr]
    unfold setFirstMonitorSpec
    simp only [hmon, if_true]
  have hfinal : (fallbackParseRFP s).items =
      { it with specifications := (⟨m⟩ : String) ++ " inch" } :: rest := by
    rw [fallbackParseRFP_items_def, hS]
    rfl
  refine ⟨hfinal, ?_⟩
  intro j hj
  rw [hfinal] at hj
  rcases List.mem_cons.mp hj with h | h
  · rw [h]
    exact inch_ne_ram m n
  · have hj0 : j ∈ extractItems s.data := by
      rw [hitems]
      exact List.mem_cons_of_mem _ h
    rw [extractItems_spec_empty hj0]
    intro hc
    have hlen := congrArg String.length hc
    simp only [String.length_append] at hlen
    have : ("" : String).length = 0 := rfl
    have : ("GB RAM" : String).length = 6 := rfl
    omega

set_option maxRecDepth 100000 in
/-- Claim C10, witness: on `"We need 2 monitors 24 inch with 16GB RAM"` the
hypotheses hold concretely, and the single returned item carries `"24 inch"`
with the RAM information gone. -/
theorem C10_witness :
    (fallbackParseRFP "We need 2 monitors 24 inch with 16GB RAM").items =
      [{ name := "Monitor", quantity := 2, specifications := "24 inch" }] := by
  have h := C10_screen_overwrites_ram "We need 2 monitors 24 inch with 16GB RAM"
    "16".data "24".data { name := "Monitor", quantity := 2, specifications := "" } []
    (by decide) (by decide) (by decide) (by decide)
  rw [h.1]
  rfl

/-! ## Claim C1 -/

/-- A shorthand for building a proposal fixture. -/
def mkProposal (idStr nm : String) (tp dd : Option ℚ) (w : Option String) : Proposal :=
  ⟨⟨idStr, nm⟩, some ⟨tp, [], none, dd, none, w, none, [], none⟩⟩

/-- Fixture for the C1 counterexample: a proposal with `deliveryDays = 300`
(no price, no warranty), whose raw delivery score `round(100 − 300/60·50) =
−150` is clamped to `0` in the returned field but enters the overall mean
unclamped. -/
def c1cxProp : Proposal := mkProposal "idA" "VendorA" none (some 300) none

unseal Rat.add Rat.mul Rat.inv Rat.sub Rat.ofScientific in
/-- Claim C1, counterexample: for the single proposal with
`deliveryDays = 300`, the code returns sub-scores `(50, 0, 60)` and
`overallScore = 0` (the mean is taken over the *unclamped* sub-scores
`50 − 150 + 60`), while the claim's `overallScore =
clamp(round(mean of the returned sub-scores))` would be `37 ≠ 0`. -/
theorem C1_counterexample :
    ((fallbackCompareProposals sampleRFPDoc [c1cxProp]).vendorScores.map
      (fun v => (v.priceScore, v.deliveryScore, v.termsScore, v.overallScore))) =
        [(50, 0, 60, 0)] ∧
    clamp (jsRound (((50 + 0 + 60 : ℤ) : ℚ) / 3)) = 37 := by
  constructor
  · decide
  · decide

/-- Claim C1, amended: every numeric score field of every returned
`VendorScore` lies in `[0, 100]`; the returned `overallScore` is
`clamp(round(mean))` of the three *pre-clamp* sub-scores; and whenever the raw
delivery score already lies within `[0, 100]` (in particular whenever
`deliveryDays` is missing, `0`, `≥ 999`, or in `(0, 120]`), this coincides
with the claimed `clamp(round(mean of the three returned sub-scores))` —
the raw price score always lies in `[50, 100]`. -/
theorem C1_amended (rfp : RFPDoc) (ps : List Proposal) :
    (∀ vs ∈ (fallbackCompareProposals rfp ps).vendorScores,
      (0 ≤ vs.priceScore ∧ vs.priceScore ≤ 100) ∧
      (0 ≤ vs.deliveryScore ∧ vs.deliveryScore ≤ 100) ∧
      (0 ≤ vs.termsScore ∧ vs.termsScore ≤ 100) ∧
      (0 ≤ vs.overallScore ∧ vs.overallScore ≤ 100)) ∧
    (∀ p ∈ ps,
      (scoreProposal ps p).overallScore = clamp (jsRound
        (((priceScoreRaw ps p + deliveryScoreRaw p + termsScoreOf p : ℤ) : ℚ) / 3)) ∧
      (0 ≤ deliveryScoreRaw p → deliveryScoreRaw p ≤ 100 →
        (scoreProposal ps p).overallScore = clamp (jsRound
          ((((scoreProposal ps p).priceScore + (scoreProposal ps p).deliveryScore +
            (scoreProposal ps p).termsScore : ℤ) : ℚ) / 3)))) := by
  constructor
  · intro vs hvs
    rw [compare_vendorScores_def] at hvs
    have hvs' := (List.mem_insertionSort vsDescLe).mp hvs
    rcases List.mem_map.mp hvs' with ⟨p, _, hpe⟩
    subst hpe
    refine ⟨?_, ?_, ?_, ?_⟩
    · exact clamp_mem _
    · exact clamp_mem _
    · rw [scoreProposal_termsScore]
      unfold termsScoreOf
      split <;> omega
    · exact clamp_mem _
  · intro p hp
    constructor
    · rfl
    · intro h0 h100
      have hpr := priceScoreRaw_mem hp
      have e1 : clamp (priceScoreRaw ps p) = priceScoreRaw ps p :=
        clamp_eq_self (by omega) (by omega)
      have e2 : clamp (deliveryScoreRaw p) = deliveryScoreRaw p := clamp_eq_self h0 h100
      rw [scoreProposal_overallScore, scoreProposal_priceScore, scoreProposal_deliveryScore,
        scoreProposal_termsScore, e1, e2]
      rfl

/-- Fixture for the C1 witness: delivery 30 days, no price, no warranty. -/
def c1wProp : Proposal := mkProposal "idW" "VendorW" none (some 30) none

unseal Rat.add Rat.mul Rat.inv Rat.sub Rat.ofScientific in
/-- Claim C1, witness: the amended theorem applied to the singleton list of
`c1wProp`, whose raw delivery score is in range, so both forms of the overall
score agree. -/
theorem C1_amended_witness :
    ((0 ≤ (scoreProposal [c1wProp] c1wProp).overallScore ∧
       (scoreProposal [c1wProp] c1wProp).overallScore ≤ 100) ∧
     (scoreProposal [c1wProp] c1wProp).overallScore = clamp (jsRound
       (((priceScoreRaw [c1wProp] c1wProp + deliveryScoreRaw c1wProp +
         termsScoreOf c1wProp : ℤ) : ℚ) / 3)) ∧
     (scoreProposal [c1wProp] c1wProp).overallScore = clamp (jsRound
       ((((scoreProposal [c1wProp] c1wProp).priceScore +
         (scoreProposal [c1wProp] c1wProp).deliveryScore +
         (scoreProposal [c1wProp] c1wProp).termsScore : ℤ) : ℚ) / 3))) := by
  have hA := (C1_amended sampleRFPDoc [c1wProp]).1 (scoreProposal [c1wProp] c1wProp) (by decide)
  have hB := (C1_amended sampleRFPDoc [c1wProp]).2 c1wProp (by decide)
  exact ⟨hA.2.2.2, hB.1, hB.2 (by decide) (by decide)⟩

/-! ## Claim C5 -/

/-- Modelled from the claim's words: "minPrice the minimum totalPrice over
proposals that have one (0 if none do)". -/
def claimC5MinPrice (ps : List Proposal) : ℚ :=
  match ps.filterMap (fun p => p.parsedData.bind ProposalData.totalPrice) with
  | [] => 0
  | a :: t => t.foldl min a

/-- Modelled from the claim's words: "maxPrice the maximum of
totals-or-zero". -/
def claimC5MaxPrice (ps : List Proposal) : ℚ :=
  match ps.map tpOf with
  | [] => 0
  | a :: t => t.foldl max a

/-- Modelled from the claim's words: "a proposal with a price gets priceScore
= round(100 − ((price − minPrice) / (maxPrice − minPrice or 1)) × 50) clamped
to [0,100], and a proposal missing a price gets exactly 50". -/
def claimC5PriceScore (ps : List Proposal) (p : Proposal) : ℤ :=
  match p.parsedData.bind ProposalData.totalPrice with
  | some v =>
    clamp (jsRound (100 - ((v - claimC5MinPrice ps) /
      (if claimC5MaxPrice ps - claimC5MinPrice ps = 0 then 1
       else claimC5MaxPrice ps - claimC5MinPrice ps)) * 50))
  | none => 50

/-- Fixtures for the C5 counterexample: VendorA *has* a price (−50), VendorB
has 100. -/
def c5cxA : Proposal := mkProposal "idA" "VendorA" (some (-50)) none none
def c5cxB : Proposal := mkProposal "idB" "VendorB" (some 100) none none

unseal Rat.add Rat.mul Rat.inv Rat.sub Rat.ofScientific in
/-- Claim C5, counterexample: the code's guard is `price > 0`, not "has a
price".  For the pair (VendorA: totalPrice −50, VendorB: totalPrice 100) the
code gives VendorA `priceScore = 50` (the missing-price constant), while the
claim's formula — VendorA has a price, `minPrice = −50`,
`maxPrice − minPrice = 150`, ratio `0` — demands `100`. -/
theorem C5_counterexample :
    ((fallbackCompareProposals sampleRFPDoc [c5cxA, c5cxB]).vendorScores.map
      (fun v => (v.vendorName, v.priceScore))) = [("VendorA", 50), ("VendorB", 50)] ∧
    claimC5PriceScore [c5cxA, c5cxB] c5cxA = 100 := by
  constructor
  · decide
  · decide

/-- Fixtures for the C5 scenario: totalPrice 5000 vs 8000, both without
warranty and without delivery. -/
def c5sA : Proposal := mkProposal "idA" "VendorA" (some 5000) none none
def c5sB : Proposal := mkProposal "idB" "VendorB" (some 8000) none none

unseal Rat.add Rat.mul Rat.inv Rat.sub Rat.ofScientific in
/-- Claim C5, amended: a proposal with a *positive* effective price gets
`clamp(round(100 − ((price − minPrice) / (maxPrice − minPrice or 1)) × 50))`
(with `minPrice` the minimum over proposals whose `totalPrice` is truthy and
`maxPrice` the `|| 1`-guarded maximum of totals-or-zero), and a proposal with
a missing, zero, or negative price gets exactly 50; the returned price score
always lies in `[50, 100]`; and in the 5000-vs-8000 scenario the cheaper
vendor scores 100, the costlier 50, and both get `termsScore = 60`. -/
theorem C5_amended (ps : List Proposal) :
    (∀ p ∈ ps, (scoreProposal ps p).priceScore =
      (if 0 < tpOf p then
        clamp (jsRound (100 - ((tpOf p - minPriceOf ps) /
          (if maxPriceOf ps - minPriceOf ps = 0 then 1
           else maxPriceOf ps - minPriceOf ps)) * 50))
       else 50)) ∧
    (∀ p ∈ ps, 50 ≤ (scoreProposal ps p).priceScore ∧
      (scoreProposal ps p).priceScore ≤ 100) ∧
    ((fallbackCompareProposals sampleRFPDoc [c5sA, c5sB]).vendorScores.map
      (fun v => (v.vendorName, v.priceScore, v.termsScore))) =
        [("VendorA", 100, 60), ("VendorB", 50, 60)] := by
  refine ⟨?_, ?_, by decide⟩
  · intro p _
    rw [scoreProposal_priceScore]
    unfold priceScoreRaw
    by_cases h : 0 < tpOf p
    · rw [if_pos h, if_pos h]
    · rw [if_neg h, if_neg h]
      decide
  · intro p hp
    have hb := priceScoreRaw_mem hp
    rw [scoreProposal_priceScore, clamp_eq_self (by omega) (by omega)]
    exact hb

unseal Rat.add Rat.mul Rat.inv Rat.sub Rat.ofScientific in
/-- Claim C5, witness: the amended characterisation applied to the scenario
pair at the cheaper proposal. -/
theorem C5_amended_witness :
    (scoreProposal [c5sA, c5sB] c5sA).priceScore =
      (if 0 < tpOf c5sA then
        clamp (jsRound (100 - ((tpOf c5sA - minPriceOf [c5sA, c5sB]) /
          (if maxPriceOf [c5sA, c5sB] - minPriceOf [c5sA, c5sB] = 0 then 1
           else maxPriceOf [c5sA, c5sB] - minPriceOf [c5sA, c5sB])) * 50))
       else 50) ∧
    50 ≤ (scoreProposal [c5sA, c5sB] c5sA).priceScore :=
  ⟨(C5_amended [c5sA, c5sB]).1 c5sA (by decide),
   ((C5_amended [c5sA, c5sB]).2.1 c5sA (by decide)).1⟩

/-! ## Claim C6 -/

/-- Modelled from the claim's words: "if its deliveryDays is less than 999
then deliveryScore = round(100 − (deliveryDays/60) × 50) clamped to [0,100],
and otherwise (999 sentinel / unknown) deliveryScore is exactly 50". -/
def claimC6DeliveryScore (p : Proposal) : ℤ :=
  match p.parsedData.bind ProposalData.deliveryDays with
  | some v => if v < 999 then clamp (jsRound (100 - v / 60 * 50)) else 50
  | none => 50

/-- Fixture for the C6 counterexample: `deliveryDays = 0`. -/
def c6cxProp : Proposal := mkProposal "idA" "VendorA" none (some 0) none

unseal Rat.add Rat.mul Rat.inv Rat.sub Rat.ofScientific in
/-- Claim C6, counterexample: `deliveryDays = 0` is falsy, so
`deliveryDays || 999` yields the sentinel and the code returns 50; the claim
(`0 < 999`, hence the formula) demands `clamp(round(100 − 0)) = 100`. -/
theorem C6_counterexample :
    ((fallbackCompareProposals sampleRFPDoc [c6cxProp]).vendorScores.map
      (fun v => v.deliveryScore)) = [50] ∧
    claimC6DeliveryScore c6cxProp = 100 := by
  constructor
  · decide
  · decide

/-- Claim C6, amended: if `deliveryDays` is present, non-zero and `< 999`,
then `deliveryScore = clamp(round(100 − (deliveryDays/60) × 50))`; otherwise
(missing, zero — which the `|| 999` guard turns into the sentinel — or
`≥ 999`) it is exactly 50. -/
theorem C6_amended (ps : List Proposal) : ∀ p ∈ ps,
    (scoreProposal ps p).deliveryScore =
      (match p.parsedData.bind ProposalData.deliveryDays with
       | some v => if v ≠ 0 ∧ v < 999 then clamp (jsRound (100 - v / 60 * 50)) else 50
       | none => 50) := by
  intro p _
  rw [scoreProposal_deliveryScore]
  unfold deliveryScoreRaw dlOf
  cases hb : p.parsedData.bind ProposalData.deliveryDays with
  | none =>
    rw [if_neg (by norm_num)]
    decide
  | some v =>
    dsimp only
    by_cases hv0 : v = 0
    · rw [if_pos hv0, if_neg (by norm_num), if_neg (by simp [hv0])]
      decide
    · rw [if_neg hv0]
      by_cases hvlt : v < 999
      · rw [if_pos hvlt, if_pos ⟨hv0, hvlt⟩]
      · rw [if_neg hvlt, if_neg (by simp [hvlt, hv0])]
        decide

/-- Fixture for the C6 witness: `deliveryDays = 30`. -/
def c6wProp : Proposal := mkProposal "idW" "VendorW" none (some 30) none

unseal Rat.add Rat.mul Rat.inv Rat.sub Rat.ofScientific in
/-- Claim C6, witness: the amended characterisation at a concrete proposal
with `deliveryDays = 30`. -/
theorem C6_amended_witness :
    (scoreProposal [c6wProp] c6wProp).deliveryScore =
      (match c6wProp.parsedData.bind ProposalData.deliveryDays with
       | some v => if v ≠ 0 ∧ v < 999 then clamp (jsRound (100 - v / 60 * 50)) else 50
       | none => 50) :=
  C6_amended [c6wProp] c6wProp (by decide)

/-! ## Claim C7 -/

/-- Claim C7: the returned `vendorScores` list is the per-proposal score list
sorted by `overallScore` descending (`Pairwise vsDescLe`), it is a permutation
of the input's scores, ties keep the input's relative order (for every key,
filtering the output to that key gives exactly the input's sublist for that
key — the characterisation of a stable sort), the recommendation names the
first entry, and the alternative option names the second entry when there is
one and is `null` otherwise. -/
theorem C7_sorting (rfp : RFPDoc) (ps : List Proposal) (h : ps ≠ []) :
    ((fallbackCompareProposals rfp ps).vendorScores).Pairwise vsDescLe ∧
    (fallbackCompareProposals rfp ps).vendorScores.Perm (ps.map (scoreProposal ps)) ∧
    (∀ k : ℤ, ((fallbackCompareProposals rfp ps).vendorScores.filter
        (fun v => v.overallScore == k)) =
      ((ps.map (scoreProposal ps)).filter (fun v => v.overallScore == k))) ∧
    (∃ r rest, (fallbackCompareProposals rfp ps).vendorScores = r :: rest ∧
      (fallbackCompareProposals rfp ps).recommendation.recommendedVendorId = r.vendorId ∧
      (fallbackCompareProposals rfp ps).recommendation.recommendedVendorName = r.vendorName ∧
      (fallbackCompareProposals rfp ps).recommendation.alternativeOption =
        (match rest with
         | b :: _ => some (b.vendorName ++ " as second choice")
         | [] => none)) := by
  refine ⟨?_, ?_, ?_, ?_⟩
  · rw [compare_vendorScores_def]
    exact List.sorted_insertionSort vsDescLe _
  · rw [compare_vendorScores_def]
    exact List.perm_insertionSort vsDescLe _
  · intro k
    rw [compare_vendorScores_def]
    have hpair : ((ps.map (scoreProposal ps)).filter
        (fun v => v.overallScore == k)).Pairwise vsDescLe := by
      apply List.pairwise_of_forall_mem_list
      intro a ha b hb
      have ha' : a.overallScore = k := by
        simpa using (List.mem_filter.mp ha).2
      have hb' : b.overallScore = k := by
        simpa using (List.mem_filter.mp hb).2
      unfold vsDescLe
      rw [ha', hb']
    have h1 : List.Sublist
        ((ps.map (scoreProposal ps)).filter (fun v => v.overallScore == k))
        (List.insertionSort vsDescLe (ps.map (scoreProposal ps))) :=
      List.sublist_insertionSort hpair (List.filter_sublist _)
    have h2 : ((ps.map (scoreProposal ps)).filter (fun v => v.overallScore == k)).filter
        (fun v => v.overallScore == k) =
        (ps.map (scoreProposal ps)).filter (fun v => v.overallScore == k) := by
      apply List.filter_eq_self.mpr
      intro a ha
      exact (List.mem_filter.mp ha).2
    have h3 := h1.filter (fun v => v.overallScore == k)
    rw [h2] at h3
    have h4 : ((List.insertionSort vsDescLe (ps.map (scoreProposal ps))).filter
        (fun v => v.overallScore == k)).Perm
        ((ps.map (scoreProposal ps)).filter (fun v => v.overallScore == k)) :=
      (List.perm_insertionSort vsDescLe (ps.map (scoreProposal ps))).filter _
    exact (h3.eq_of_length h4.length_eq.symm).symm
  · cases hs : List.insertionSort vsDescLe (ps.map (scoreProposal ps)) with
    | nil =>
      exfalso
      have hlen := congrArg List.length hs
      simp only [List.length_insertionSort, List.length_map, List.length_nil] at hlen
      exact h (List.length_eq_zero.mp hlen)
    | cons r rest =>
      refine ⟨r, rest, ?_, ?_, ?_, ?_⟩
      · rw [compare_vendorScores_def, hs]
      · rw [compare_recommendedId_def, hs]
        rfl
      · rw [compare_recommendedName_def, hs]
        rfl
      · rw [compare_alternative_def, hs]
        cases rest <;> rfl

unseal Rat.add Rat.mul Rat.inv Rat.sub Rat.ofScientific in
/-- Claim C7, witness: the sorting theorem applied to a concrete two-element
list (5000-vs-8000 fixtures). -/
theorem C7_sorting_witness :
    ((fallbackCompareProposals sampleRFPDoc [c5sA, c5sB]).vendorScores).Pairwise vsDescLe ∧
    (fallbackCompareProposals sampleRFPDoc [c5sA, c5sB]).vendorScores.Perm
      ([c5sA, c5sB].map (scoreProposal [c5sA, c5sB])) :=
  ⟨(C7_sorting sampleRFPDoc [c5sA, c5sB] (by decide)).1,
   (C7_sorting sampleRFPDoc [c5sA, c5sB] (by decide)).2.1⟩

/-! ## Claim C8 -/

/-- `t` occurs verbatim (as a contiguous substring) in `s`. -/
def strContains (s t : String) : Prop := t.data <:+: s.data

/-- Claim C8: for every RFP with a non-empty item list, the fallback e-mail
body is the fixed prefix, the `'\n'`-join of one rendered line per item
(exactly N lines for N items), and the fixed suffix; and each rendered line
reproduces its item's `name` and `quantity` verbatim, and its
`specifications` verbatim when present (non-empty). -/
theorem C8_email_items (rfp : RFPDoc) (vendorName : String) (h : rfp.items ≠ []) :
    (fallbackGenerateEmail rfp vendorName).body =
      emailBodyPre rfp vendorName ++
        String.intercalate "\n" (rfp.items.map renderItemLine) ++ emailBodyPost rfp ∧
    (rfp.items.map renderItemLine).length = rfp.items.length ∧
    ∀ it ∈ rfp.items,
      strContains (renderItemLine it) it.name ∧
      strContains (renderItemLine it) (toString it.quantity) ∧
      (it.specifications ≠ "" → strContains (renderItemLine it) it.specifications) := by
  refine ⟨?_, by simp, ?_⟩
  · obtain ⟨a, t, he⟩ := List.exists_cons_of_ne_nil h
    unfold fallbackGenerateEmail itemsListStr
    rw [he]
  · intro it _
    refine ⟨?_, ?_, ?_⟩
    · refine ⟨"  • ".data, (": Quantity " ++ toString it.quantity ++
        (if it.specifications ≠ "" then " (" ++ it.specifications ++ ")" else "")).data, ?_⟩
      simp [renderItemLine, String.data_append]
    · refine ⟨("  • " ++ it.name ++ ": Quantity ").data,
        (if it.specifications ≠ "" then " (" ++ it.specifications ++ ")" else "").data, ?_⟩
      simp [renderItemLine, String.data_append]
    · intro hspec
      refine ⟨("  • " ++ it.name ++ ": Quantity " ++ toString it.quantity ++ " (").data,
        ")".data, ?_⟩
      simp [renderItemLine, String.data_append, hspec]

/-- Fixture for the C8 witness. -/
def c8RFPDoc : RFPDoc :=
  { title := "Laptop Procurement", description := some "Office hardware",
    budget := some 10000, deliveryDays := some 14,
    items := [{ name := "Laptop", quantity := 5, specifications := "16GB RAM" },
              { name := "Monitor", quantity := 2, specifications := "" }],
    requirements := ⟨some "Net 30", none, none, []⟩ }

/-- Claim C8, witness: the decomposition of the e-mail body at a concrete
two-item RFP. -/
theorem C8_email_items_witness :
    (fallbackGenerateEmail c8RFPDoc "Acme Corp").body =
      emailBodyPre c8RFPDoc "Acme Corp" ++
        String.intercalate "\n" (c8RFPDoc.items.map renderItemLine) ++
        emailBodyPost c8RFPDoc :=
  (C8_email_items c8RFPDoc "Acme Corp" (by decide)).1

end Aerchain
